import Mathlib

/-!
Verification of the packetpony layer-4 forwarder: a shallow embedding of the
sliding-window rate-limit subsystem (attempt, connection and bandwidth
limiters, and the composing manager), the CIDR allowlist, the UDP session
table, and the TCP copy loop, together with theorems settling the frozen
claims about them.

Conventions of the embedding:
- Go `time.Time` values become `Int` instants; `time.Duration` windows become
  `Int`; `ts.After(cutoff)` becomes `cutoff < ts`.
- Go `int`/`int64` counters become `Int` (no arithmetic here approaches the
  64-bit overflow boundary, so wrapping is not modelled).
- Go maps keyed by IP strings become total functions `String → Option e`;
  a missing key is `none`, matching the `entry, exists := m[ip]` idiom.
- Mutation becomes explicit state passing: a Go method that mutates its
  receiver and returns `bool` becomes a Lean function returning the new
  state paired with the `Bool`.
- Background cleanup goroutines, locks and logging side effects are not part
  of any claim checked here and are elided; the lock-guarded bodies are
  modelled as atomic steps, matching the linearizable contract.
-/

namespace PacketPony

/-! ## AttemptLimiter (src/internal/ratelimit/attempt_limiter.go) -/

/-- AttemptLimiter state: `maxPerIP` and `window` from the constructor, and
the per-IP timestamp lists of the `attempts` map. -/
structure AttemptLimiter where
  maxPerIP : Int
  window : Int
  attempts : String → Option (List Int)

/-- NewAttemptLimiter: fresh limiter with an empty `attempts` map. -/
def NewAttemptLimiter (maxPerIP window : Int) : AttemptLimiter :=
  { maxPerIP := maxPerIP, window := window, attempts := fun _ => none }

/-- View of the per-IP attempt list; a missing entry behaves as the empty
list, exactly as `RecordAttempt` creates an empty entry before using it. -/
def attemptsOf (l : AttemptLimiter) (ip : String) : List Int :=
  (l.attempts ip).getD []

/-- Timestamps of `ip` that survive the expiry pass of `RecordAttempt` at
instant `now`: those strictly newer than `now - window`. -/
def validAttempts (l : AttemptLimiter) (ip : String) (now : Int) : List Int :=
  (attemptsOf l ip).filter (fun ts => decide (now - l.window < ts))

/-- RecordAttempt (attempt_limiter.go lines 40-76): expire old timestamps,
append `now` unconditionally, and return true iff the pre-append count was
below `maxPerIP`. -/
def AttemptLimiter.RecordAttempt (l : AttemptLimiter) (ip : String) (now : Int) :
    AttemptLimiter × Bool :=
  let valid := validAttempts l ip now
  let newList := valid ++ [now]
  let l' : AttemptLimiter :=
    { l with attempts := fun k => if k = ip then some newList else l.attempts k }
  if (valid.length : Int) ≥ l.maxPerIP then
    (l', false)
  else
    (l', true)

/-- Iterate `RecordAttempt` for one IP over a list of call instants,
collecting the returned booleans in order. -/
def attemptRun (l : AttemptLimiter) (ip : String) : List Int → AttemptLimiter × List Bool
  | [] => (l, [])
  | t :: rest =>
    let p := l.RecordAttempt ip t
    let r := attemptRun p.1 ip rest
    (r.1, p.2 :: r.2)

/-! ## ConnectionLimiter (src/internal/ratelimit/connection_limiter.go) -/

/-- Per-IP record of the connection limiter: the logical active count and the
admission timestamps. -/
structure connEntry where
  count : Int
  timestamps : List Int
deriving DecidableEq

/-- ConnectionLimiter state. -/
structure ConnectionLimiter where
  maxPerIP : Int
  window : Int
  connections : String → Option connEntry

/-- NewConnectionLimiter: fresh limiter with an empty `connections` map. -/
def NewConnectionLimiter (maxPerIP window : Int) : ConnectionLimiter :=
  { maxPerIP := maxPerIP, window := window, connections := fun _ => none }

/-- View of the per-IP entry; a missing entry behaves as a zero-count entry
with no timestamps, exactly as `Allow` creates one before using it. -/
def connEntryOf (l : ConnectionLimiter) (ip : String) : connEntry :=
  (l.connections ip).getD ⟨0, []⟩

/-- Store an entry for `ip` in the map. -/
def ConnectionLimiter.setEntry (l : ConnectionLimiter) (ip : String) (e : connEntry) :
    ConnectionLimiter :=
  { l with connections := fun k => if k = ip then some e else l.connections k }

/-- Allow (connection_limiter.go lines 40-77): drop expired timestamps, reset
the count to the surviving length, reject when that count has reached
`maxPerIP`, otherwise append `now` and increment the count. -/
def ConnectionLimiter.Allow (l : ConnectionLimiter) (ip : String) (now : Int) :
    ConnectionLimiter × Bool :=
  let entry := connEntryOf l ip
  let valid := entry.timestamps.filter (fun ts => decide (now - l.window < ts))
  let count : Int := valid.length
  if count ≥ l.maxPerIP then
    (l.setEntry ip ⟨count, valid⟩, false)
  else
    (l.setEntry ip ⟨count + 1, valid ++ [now]⟩, true)

/-- Release (connection_limiter.go lines 80-99): when the entry exists and
its count is positive, decrement the count and drop the oldest timestamp;
otherwise change nothing. -/
def ConnectionLimiter.Release (l : ConnectionLimiter) (ip : String) : ConnectionLimiter :=
  match l.connections ip with
  | none => l
  | some entry =>
    if 0 < entry.count then
      let newTs := if entry.timestamps = [] then entry.timestamps else entry.timestamps.tail
      l.setEntry ip ⟨entry.count - 1, newTs⟩
    else
      l

/-- Iterate `Allow` for one IP over a list of call instants, collecting the
returned booleans in order. -/
def connAllowRun (l : ConnectionLimiter) (ip : String) : List Int → ConnectionLimiter × List Bool
  | [] => (l, [])
  | t :: rest =>
    let p := l.Allow ip t
    let r := connAllowRun p.1 ip rest
    (r.1, p.2 :: r.2)

/-- One operation of a ConnectionLimiter history: an `Allow` call at some
instant or a `Release`, each for some IP. -/
inductive ConnOp where
  | allow (ip : String) (t : Int)
  | release (ip : String)

/-- Apply a list of operations to a ConnectionLimiter in order. -/
def connOpRun (l : ConnectionLimiter) : List ConnOp → ConnectionLimiter
  | [] => l
  | .allow ip t :: rest => connOpRun (l.Allow ip t).1 rest
  | .release ip :: rest => connOpRun (l.Release ip) rest

/-! ## BandwidthLimiter (src/internal/proxy/tcp_proxy.go lines 556-750) -/

/-- One consumption entry of a bandwidth bucket. -/
structure consumptionEntry where
  bytes : Int
  timestamp : Int
deriving DecidableEq

/-- BandwidthLimiter state; `action` is one of "drop", "throttle",
"log_only" (anything else behaves as the default "drop" branch). -/
structure BandwidthLimiter where
  maxPerIP : Int
  throttleMinimum : Int
  window : Int
  buckets : String → Option (List consumptionEntry)
  action : String

/-- NewBandwidthLimiter: empty action string defaults to "drop"; the bucket
map starts empty. -/
def NewBandwidthLimiter (maxPerIP window : Int) (action : String) (throttleMinimum : Int) :
    BandwidthLimiter :=
  { maxPerIP := maxPerIP
    throttleMinimum := throttleMinimum
    window := window
    buckets := fun _ => none
    action := if action = "" then "drop" else action }

/-- View of the per-IP bucket; a missing bucket behaves as the empty entry
list, exactly as `Allow` creates one before using it. -/
def bucketOf (l : BandwidthLimiter) (ip : String) : List consumptionEntry :=
  (l.buckets ip).getD []

/-- Store a bucket for `ip` in the map. -/
def BandwidthLimiter.setBucket (l : BandwidthLimiter) (ip : String)
    (b : List consumptionEntry) : BandwidthLimiter :=
  { l with buckets := fun k => if k = ip then some b else l.buckets k }

/-- Entries of a bucket that survive the expiry pass at instant `now`. -/
def bwValid (entries : List consumptionEntry) (now window : Int) : List consumptionEntry :=
  entries.filter (fun e => decide (now - window < e.timestamp))

/-- Sum of the byte fields of a bucket: the windowed usage the Go loop
accumulates while filtering. -/
def bwSum (entries : List consumptionEntry) : Int :=
  (entries.map (fun e => e.bytes)).sum

/-- Allow (bandwidth limiter, tcp_proxy.go lines 610-677): zero-byte calls
pass untouched; otherwise expire old entries, and if the usage plus the new
bytes exceeds the limit, dispatch on the action: log_only records and
allows, throttle records and allows only small-enough operations, the
default drop branch refuses without recording; under the limit the
consumption is recorded and allowed. -/
def BandwidthLimiter.Allow (l : BandwidthLimiter) (ip : String) (bytes now : Int) :
    BandwidthLimiter × Bool :=
  if bytes = 0 then (l, true)
  else
    let valid := bwValid (bucketOf l ip) now l.window
    let currentUsage := bwSum valid
    if l.maxPerIP < currentUsage + bytes then
      if l.action = "log_only" then
        (l.setBucket ip (valid ++ [⟨bytes, now⟩]), true)
      else if l.action = "throttle" then
        if 0 < l.throttleMinimum ∧ bytes ≤ l.throttleMinimum then
          (l.setBucket ip (valid ++ [⟨bytes, now⟩]), true)
        else
          (l.setBucket ip valid, false)
      else
        (l.setBucket ip valid, false)
    else
      (l.setBucket ip (valid ++ [⟨bytes, now⟩]), true)

/-- IsOverLimit (tcp_proxy.go lines 680-707): read-only check whether the
windowed usage plus `bytes` exceeds the limit; a missing bucket and
zero-byte calls report false. -/
def BandwidthLimiter.IsOverLimit (l : BandwidthLimiter) (ip : String) (bytes now : Int) : Bool :=
  if bytes = 0 then false
  else
    match l.buckets ip with
    | none => false
    | some entries =>
      decide (l.maxPerIP < bwSum (bwValid entries now l.window) + bytes)

/-- One Allow call of a bandwidth trace: the byte argument and the instant. -/
structure BWCall where
  bytes : Int
  time : Int
deriving DecidableEq

/-- One result of a bandwidth trace: the call and the returned boolean. -/
structure BWRes where
  bytes : Int
  time : Int
  accepted : Bool
deriving DecidableEq

/-- Run a sequence of Allow calls for one IP, recording each outcome. -/
def bwRunTrace (l : BandwidthLimiter) (ip : String) : List BWCall → List BWRes
  | [] => []
  | c :: rest =>
    let p := l.Allow ip c.bytes c.time
    ⟨c.bytes, c.time, p.2⟩ :: bwRunTrace p.1 ip rest

/-- Sum of the byte arguments of the accepted calls of a trace whose
timestamps fall in the window of length `W` ending at `t`. -/
def bwWinSum (W t : Int) (tr : List BWRes) : Int :=
  (tr.map (fun r => if r.accepted ∧ t - W < r.time ∧ r.time ≤ t then r.bytes else 0)).sum

/-! ## RateLimitManager (src/unnamed/part_006 lines 1-153, the attempt-aware
version cited by the claims) -/

/-- RateLimitManager state: the three optional limiters, the listener-wide
total-connections counter, its cap, and the configured action string. -/
structure RateLimitManager where
  connLimiter : Option ConnectionLimiter
  attemptLimiter : Option AttemptLimiter
  bandwidthLimiter : Option BandwidthLimiter
  totalConns : Int
  maxTotalConns : Int
  action : String

/-- AllowTotalConnection (part_006 lines 109-121): a zero cap disables the
check; otherwise increment the counter, and if the result exceeds the cap,
undo the increment and refuse. -/
def RateLimitManager.AllowTotalConnection (m : RateLimitManager) :
    RateLimitManager × Bool :=
  if m.maxTotalConns = 0 then (m, true)
  else
    let current := m.totalConns + 1
    if m.maxTotalConns < current then
      ({ m with totalConns := current - 1 }, false)
    else
      ({ m with totalConns := current }, true)

/-- ReleaseTotalConnection (part_006 lines 131-135): decrement the counter
only when a positive cap is configured. -/
def RateLimitManager.ReleaseTotalConnection (m : RateLimitManager) : RateLimitManager :=
  if 0 < m.maxTotalConns then { m with totalConns := m.totalConns - 1 } else m

/-- AllowConnection (part_006 lines 57-81): record the attempt first and stop
on refusal; then take a total-connections slot; then ask the per-IP
connection limiter, rolling the total slot back on refusal. -/
def RateLimitManager.AllowConnection (m : RateLimitManager) (ip : String) (now : Int) :
    RateLimitManager × Bool :=
  let step1 : RateLimitManager × Bool :=
    match m.attemptLimiter with
    | some al =>
      let p := al.RecordAttempt ip now
      ({ m with attemptLimiter := some p.1 }, p.2)
    | none => (m, true)
  if step1.2 = false then (step1.1, false)
  else
    let step2 := step1.1.AllowTotalConnection
    if step2.2 = false then (step2.1, false)
    else
      match step2.1.connLimiter with
      | some cl =>
        let p := cl.Allow ip now
        let m3 := { step2.1 with connLimiter := some p.1 }
        if p.2 = false then (m3.ReleaseTotalConnection, false)
        else (m3, true)
      | none => (step2.1, true)

/-- AllowBandwidth (part_006 lines 84-89): delegate to the bandwidth limiter
when configured, otherwise allow. -/
def RateLimitManager.AllowBandwidth (m : RateLimitManager) (ip : String) (bytes now : Int) :
    RateLimitManager × Bool :=
  match m.bandwidthLimiter with
  | some bl =>
    let p := bl.Allow ip bytes now
    ({ m with bandwidthLimiter := some p.1 }, p.2)
  | none => (m, true)

/-- Modelled from the spec: the admission order stated by claim C1 and spec
section 4.5, written step by step from its words — first record the attempt
when an AttemptLimiter is configured and stop on refusal; second, when
`max_total_connections > 0`, increment the total counter and undo the
increment and refuse when the result exceeds the limit; third, ask the
ConnectionLimiter when configured and on refusal decrement the total counter
(rolling back the second step) and refuse; otherwise admit. -/
def AllowConnectionClaim (m : RateLimitManager) (ip : String) (now : Int) :
    RateLimitManager × Bool :=
  let afterAttempt : RateLimitManager × Bool :=
    match m.attemptLimiter with
    | some al =>
      let p := al.RecordAttempt ip now
      ({ m with attemptLimiter := some p.1 }, p.2)
    | none => (m, true)
  if afterAttempt.2 = false then (afterAttempt.1, false)
  else
    let m1 := afterAttempt.1
    let afterTotal : RateLimitManager × Bool :=
      if 0 < m1.maxTotalConns then
        let result := m1.totalConns + 1
        if m1.maxTotalConns < result then
          ({ m1 with totalConns := result - 1 }, false)
        else
          ({ m1 with totalConns := result }, true)
      else (m1, true)
    if afterTotal.2 = false then (afterTotal.1, false)
    else
      let m2 := afterTotal.1
      match m2.connLimiter with
      | some cl =>
        let p := cl.Allow ip now
        let m3 := { m2 with connLimiter := some p.1 }
        if p.2 = false then
          (if 0 < m3.maxTotalConns then { m3 with totalConns := m3.totalConns - 1 } else m3,
           false)
        else (m3, true)
      | none => (m2, true)

/-! ## SessionManager (src/internal/proxy/tcp_proxy.go lines 279-555, package
session) -/

/-- Session record: the identity, monotonic counters, and the creation
instant that the cleanup path reads through GetStats and GetCreatedAt.
Sockets, contexts and locks carry no data relevant to the claims. -/
structure Session where
  id : String
  bytesSent : Int
  bytesReceived : Int
  packetsSent : Int
  packetsReceived : Int
  createdAt : Int
deriving DecidableEq

/-- SessionManager state: the session map. -/
structure SessionManager where
  sessions : String → Option Session
  timeout : Int

/-- Remove (tcp_proxy.go lines 405-418): a missing id returns nil and leaves
the map untouched; a present id is deleted, its session has its context
cancelled, and the session is returned. The third component records whether
the cancellation signal was fired by this call. -/
def SessionManager.Remove (m : SessionManager) (sessionID : String) :
    SessionManager × Option Session × Bool :=
  match m.sessions sessionID with
  | none => (m, none, false)
  | some session =>
    ({ m with sessions := fun k => if k = sessionID then none else m.sessions k },
     some session, true)

/-! ## UDP session cleanup (src/internal/proxy/udp_proxy.go lines 482-539,
the threshold-aware cleanupSession cited by the claims) -/

/-- UDP logging configuration fields read by cleanupSession. -/
structure UDPLoggingConfig where
  logSessionClose : Bool
  minLogBytes : Int
  minLogDuration : Int

/-- Connection close event as assembled by cleanupSession; `duration` is in
the same milliseconds unit as the instants. -/
structure CloseEvent where
  bytesSent : Int
  bytesReceived : Int
  packetsSent : Int
  packetsReceived : Int
  duration : Int
deriving DecidableEq

/-- Observable effects of one cleanupSession call. -/
structure CleanupResult where
  manager : SessionManager
  socketClosed : Bool
  releasedConnection : Bool
  releasedTotal : Bool
  closeEvent : Option CloseEvent
  activeDecremented : Bool

/-- cleanupSession (udp_proxy.go lines 482-539): remove the session from the
manager and stop when another path already removed it; otherwise close the
upstream socket, release the per-IP and total quotas, and emit the close
event only when `log_close` is enabled and the byte and duration thresholds
are met; the gauge decrement and histogram observation always happen on the
winning path. -/
def cleanupSession (cfg : UDPLoggingConfig) (m : SessionManager) (sess : Session)
    (now : Int) : CleanupResult :=
  let r := m.Remove sess.id
  match r.2.1 with
  | none => ⟨r.1, false, false, false, none, false⟩
  | some _ =>
    let totalBytes := sess.bytesSent + sess.bytesReceived
    let duration := now - sess.createdAt
    let shouldLog :=
      cfg.logSessionClose
        && !(decide (0 < cfg.minLogBytes ∧ totalBytes < cfg.minLogBytes))
        && !(decide (0 < cfg.minLogDuration ∧ duration < cfg.minLogDuration))
    let event : Option CloseEvent :=
      if shouldLog then
        some ⟨sess.bytesSent, sess.bytesReceived, sess.packetsSent,
              sess.packetsReceived, duration⟩
      else none
    ⟨r.1, true, true, true, event, true⟩

/-! ## TCP copy loop (src/internal/proxy/tcp_proxy.go lines 186-247) -/

/-- Outcome of one `src.Read` call: data with no error, data or end of
stream, or data with a failing error. -/
inductive ReadErr where
  | ok
  | eof
  | fail
deriving DecidableEq

/-- Script of one iteration of the copy loop: the read result `(n, rerr)`,
the write result `(w, werr)` consumed when a write happens, and the instant
`t` passed to the bandwidth check. -/
structure CopyIter where
  n : Int
  rerr : ReadErr
  w : Int
  werr : Bool
  t : Int
deriving DecidableEq

/-- Trace entry of one iteration: the read size, whether AllowBandwidth
accepted it, and the bytes this iteration contributed to `written`. -/
structure CopyStep where
  nr : Int
  accepted : Bool
  counted : Int
deriving DecidableEq

/-- copyWithStats (tcp_proxy.go lines 186-247) over a script of I/O results:
each positive read is submitted to AllowBandwidth; a refusal ends the
direction before any write; an accepted read is written, `written` grows by
the bytes the write reported, and a write error or short write ends the
direction; zero reads skip the body; a read error ends the direction, end of
stream ending it cleanly. The trace of the logging-only IsBandwidthOverLimit
call is elided: it mutates nothing and feeds no counter. An exhausted script
models the peer closing the stream. Returns the final `written` value, which
HandleConnection (lines 145-153) adds to the
`bytes_transferred_total{direction=sent}` counter, paired with the
per-iteration trace. -/
def copyWithStats (m : RateLimitManager) (ip : String) : List CopyIter → Int × List CopyStep
  | [] => (0, [])
  | it :: rest =>
    if 0 < it.n then
      let p := m.AllowBandwidth ip it.n it.t
      if p.2 = false then (0, [⟨it.n, false, 0⟩])
      else
        let counted := if 0 < it.w then it.w else 0
        if it.werr then (counted, [⟨it.n, true, counted⟩])
        else if it.n ≠ it.w then (counted, [⟨it.n, true, counted⟩])
        else
          match it.rerr with
          | .ok =>
            let r := copyWithStats p.1 ip rest
            (counted + r.1, ⟨it.n, true, counted⟩ :: r.2)
          | .eof => (counted, [⟨it.n, true, counted⟩])
          | .fail => (counted, [⟨it.n, true, counted⟩])
    else
      match it.rerr with
      | .ok =>
        let r := copyWithStats m ip rest
        (r.1, ⟨it.n, false, 0⟩ :: r.2)
      | .eof => (0, [⟨it.n, false, 0⟩])
      | .fail => (0, [⟨it.n, false, 0⟩])

/-- Sum of the read sizes of the accepted iterations of a trace: what claim
C9 says the sent-bytes counter increases by. -/
def acceptedReadSum (tr : List CopyStep) : Int :=
  ((tr.filter (fun s => s.accepted)).map (fun s => s.nr)).sum

/-- Sum of the contributions actually accumulated into `written`. -/
def countedSum (tr : List CopyStep) : Int :=
  (tr.map (fun s => s.counted)).sum

/-! ## Allowlist (src/unnamed/part_007 lines 1-78, package acl) -/

/-- IP addresses and masks are byte lists, as Go `net.IP` and `net.IPMask`
are byte slices; a valid address has 4 or 16 bytes, each below 256. -/
def ValidIP (ip : List Nat) : Prop :=
  (ip.length = 4 ∨ ip.length = 16) ∧ ∀ b ∈ ip, b < 256

instance (ip : List Nat) : Decidable (ValidIP ip) := by
  unfold ValidIP; infer_instance

/-- To4, modelled from the Go standard library `net.IP.To4`: a 4-byte
address is itself; a 16-byte IPv4-mapped address (ten zero bytes then two
255 bytes) yields its last four bytes; anything else has no 4-byte form. -/
def To4 (ip : List Nat) : Option (List Nat) :=
  if ip.length = 4 then some ip
  else if ip.length = 16 ∧ (ip.take 10).all (fun b => b = 0)
          ∧ ip.getD 10 0 = 255 ∧ ip.getD 11 0 = 255 then
    some (ip.drop 12)
  else none

/-- The representative form of an address: its 4-byte form when one exists. -/
def normIP (ip : List Nat) : List Nat :=
  (To4 ip).getD ip

/-- A CIDR rule: network number and mask, as Go `net.IPNet`. -/
structure IPNet where
  ip : List Nat
  mask : List Nat
deriving DecidableEq

/-- networkNumberAndMask, modelled from the Go standard library: normalise
the network number to its 4-byte form when possible, reject masks that are
neither 4 nor 16 bytes, and cut a 16-byte mask down when the number is
4 bytes. -/
def networkNumberAndMask (n : IPNet) : Option (List Nat × List Nat) :=
  let nn? : Option (List Nat) :=
    match To4 n.ip with
    | some x => some x
    | none => if n.ip.length = 16 then some n.ip else none
  match nn? with
  | none => none
  | some nn =>
    if n.mask.length = 4 then
      if nn.length ≠ 4 then none else some (nn, n.mask)
    else if n.mask.length = 16 then
      if nn.length = 4 then some (nn, n.mask.drop 12) else some (nn, n.mask)
    else none

/-- Masked byte-wise comparison loop of `net.IPNet.Contains`; the Go loop
runs over the common length, which equals all three lengths on every input
reachable from networkNumberAndMask. -/
def containsLoop : List Nat → List Nat → List Nat → Bool
  | nb :: ns, mb :: ms, xb :: xs =>
    if nb &&& mb ≠ xb &&& mb then false else containsLoop ns ms xs
  | _, _, _ => true

/-- Contains, modelled from the Go standard library `net.IPNet.Contains`:
normalise the probe to its 4-byte form when possible, require equal lengths
with the network number, then compare masked bytes. When
networkNumberAndMask rejects the rule, Go compares against a nil number, so
only a zero-length probe passes. -/
def IPNet.Contains (n : IPNet) (ip : List Nat) : Bool :=
  match networkNumberAndMask n with
  | none => decide (ip.length = 0)
  | some (nn, m) =>
    let x := match To4 ip with
      | some y => y
      | none => ip
    if x.length ≠ nn.length then false
    else containsLoop nn m x

/-- Allowlist: the ordered rule list. -/
structure Allowlist where
  rules : List IPNet

/-- IsAllowed (part_007 lines 32-46): deny on an empty rule list, otherwise
permit exactly when some rule contains the address. -/
def Allowlist.IsAllowed (a : Allowlist) (ip : List Nat) : Bool :=
  if a.rules.length = 0 then false
  else a.rules.any (fun rule => rule.Contains ip)

/-- Modelled from the bare-IP branch of parseCIDROrIP (part_007 lines
61-77): the Go code round-trips the address through `ip.String()` and
`net.ParseCIDR`, which for a valid address yields the host network — the
4-byte form with a 4-byte all-ones mask when `To4` succeeds, else the
16-byte form with a 16-byte all-ones mask. -/
def parseBareIP (ip : List Nat) : IPNet :=
  match To4 ip with
  | some ip4 => ⟨ip4, List.replicate 4 255⟩
  | none => ⟨ip, List.replicate 16 255⟩

/-! ## Helper lemmas -/

/-- Reading a bucket just stored for the same IP. -/
theorem bucketOf_setBucket_same (l : BandwidthLimiter) (ip : String)
    (b : List consumptionEntry) : bucketOf (l.setBucket ip b) ip = b := by
  simp [bucketOf, BandwidthLimiter.setBucket]

/-- Reading an entry just stored for the same IP. -/
theorem connEntryOf_setEntry_same (l : ConnectionLimiter) (ip : String) (e : connEntry) :
    connEntryOf (l.setEntry ip e) ip = e := by
  simp [connEntryOf, ConnectionLimiter.setEntry]

/-- Reading an entry after a store for a different IP. -/
theorem connEntryOf_setEntry_other (l : ConnectionLimiter) (ip ip' : String) (e : connEntry)
    (h : ip' ≠ ip) : connEntryOf (l.setEntry ip e) ip' = connEntryOf l ip' := by
  simp [connEntryOf, ConnectionLimiter.setEntry, h]

/-! ## Claim C1 -/

/-- C1: RateLimitManager.AllowConnection evaluates the limits in exactly the
order the spec states — attempt limiter first with the attempt recorded even
on refusal, then the total-connections slot, then the per-IP connection
limiter with total-slot rollback on refusal. The code guards the total check
by `maxTotalConns == 0` where the claim says `> 0`; configuration validation
(validate.go line 214) rejects negative values, so the two coincide under
the stated hypothesis. -/
theorem allow_connection_order (m : RateLimitManager) (ip : String) (now : Int)
    (h : 0 ≤ m.maxTotalConns) :
    m.AllowConnection ip now = AllowConnectionClaim m ip now := by
  obtain ⟨cl, al, bl, tc, mtc, act⟩ := m
  simp only [RateLimitManager.AllowConnection, AllowConnectionClaim,
    RateLimitManager.AllowTotalConnection, RateLimitManager.ReleaseTotalConnection]
  by_cases h0 : mtc = 0
  · subst h0
    cases al <;> cases cl <;> simp
  · have hpos : 0 < mtc := by
      simp only at h
      omega
    cases al <;> cases cl <;> simp [h0, hpos]

/-- Witness for C1 at a concrete manager state. -/
theorem allow_connection_order_witness :
    0 ≤ (({ connLimiter := some (NewConnectionLimiter 2 60),
            attemptLimiter := some (NewAttemptLimiter 3 60),
            bandwidthLimiter := none, totalConns := 0, maxTotalConns := 5,
            action := "drop" } : RateLimitManager)).maxTotalConns ∧
    ({ connLimiter := some (NewConnectionLimiter 2 60),
       attemptLimiter := some (NewAttemptLimiter 3 60),
       bandwidthLimiter := none, totalConns := 0, maxTotalConns := 5,
       action := "drop" } : RateLimitManager).AllowConnection "10.0.0.7" 100
      = AllowConnectionClaim
          { connLimiter := some (NewConnectionLimiter 2 60),
            attemptLimiter := some (NewAttemptLimiter 3 60),
            bandwidthLimiter := none, totalConns := 0, maxTotalConns := 5,
            action := "drop" } "10.0.0.7" 100 :=
  ⟨by decide, allow_connection_order _ "10.0.0.7" 100 (by decide)⟩

/-! ## Claim C2 -/

/-- The dispatch behaviour claim C2 states for one over-limit or under-limit
Allow call with a positive byte count. -/
def BandwidthDispatch (l : BandwidthLimiter) (ip : String) (n now : Int) : Prop :=
  (l.maxPerIP < bwSum (bwValid (bucketOf l ip) now l.window) + n →
    (l.action = "drop" →
      l.Allow ip n now = (l.setBucket ip (bwValid (bucketOf l ip) now l.window), false)) ∧
    (l.action = "log_only" →
      l.Allow ip n now
        = (l.setBucket ip (bwValid (bucketOf l ip) now l.window ++ [⟨n, now⟩]), true)) ∧
    (l.action = "throttle" →
      ((0 < l.throttleMinimum ∧ n ≤ l.throttleMinimum) →
        l.Allow ip n now
          = (l.setBucket ip (bwValid (bucketOf l ip) now l.window ++ [⟨n, now⟩]), true)) ∧
      (¬ (0 < l.throttleMinimum ∧ n ≤ l.throttleMinimum) →
        l.Allow ip n now
          = (l.setBucket ip (bwValid (bucketOf l ip) now l.window), false)))) ∧
  (bwSum (bwValid (bucketOf l ip) now l.window) + n ≤ l.maxPerIP →
    l.Allow ip n now
      = (l.setBucket ip (bwValid (bucketOf l ip) now l.window ++ [⟨n, now⟩]), true))

/-- C2: for a positive byte count, when windowed usage plus the new bytes
exceeds the maximum, BandwidthLimiter.Allow refuses without recording under
drop, records and allows under log_only, and under throttle records and
allows exactly the calls with `0 < throttle_min` and `n ≤ throttle_min`;
when the limit is not exceeded it records and allows for every action. -/
theorem bandwidth_allow_dispatch (l : BandwidthLimiter) (ip : String) (n now : Int)
    (hn : 0 < n) : BandwidthDispatch l ip n now := by
  have hne : n ≠ 0 := by omega
  constructor
  · intro hover
    refine ⟨?_, ?_, ?_⟩
    · intro hact
      rw [BandwidthLimiter.Allow]
      simp only [hne, if_false, hact]
      rw [if_pos hover, if_neg (by decide), if_neg (by decide)]
    · intro hact
      rw [BandwidthLimiter.Allow]
      simp only [hne, if_false, hact]
      rw [if_pos hover]
      simp only [if_true]
    · intro hact
      constructor
      · intro hth
        rw [BandwidthLimiter.Allow]
        simp only [hne, if_false, hact]
        rw [if_pos hover, if_neg (by decide)]
        simp only [if_true]
        rw [if_pos hth]
      · intro hth
        rw [BandwidthLimiter.Allow]
        simp only [hne, if_false, hact]
        rw [if_pos hover, if_neg (by decide)]
        simp only [if_true]
        rw [if_neg hth]
  · intro hunder
    rw [BandwidthLimiter.Allow]
    simp only [hne, if_false]
    rw [if_neg (by omega)]

/-- Witness for C2 at a concrete throttle-mode limiter. -/
theorem bandwidth_allow_dispatch_witness :
    (0 : Int) < 5
      ∧ BandwidthDispatch (NewBandwidthLimiter 100 60 "throttle" 16) "10.0.0.7" 5 30 :=
  ⟨by decide, bandwidth_allow_dispatch (NewBandwidthLimiter 100 60 "throttle" 16) "10.0.0.7" 5 30 (by decide)⟩

/-! ## Claim C8 -/

/-- C8: removing a present session id yields the session and fires the
cancellation signal; removing it again yields none, fires nothing, and
leaves the manager unchanged; removing an absent id returns none and changes
nothing. -/
theorem session_remove_idempotent (m : SessionManager) (sessionID : String) :
    (∀ s, m.sessions sessionID = some s →
      (m.Remove sessionID).2.1 = some s ∧ (m.Remove sessionID).2.2 = true ∧
      ((m.Remove sessionID).1.Remove sessionID).1 = (m.Remove sessionID).1 ∧
      ((m.Remove sessionID).1.Remove sessionID).2.1 = none ∧
      ((m.Remove sessionID).1.Remove sessionID).2.2 = false) ∧
    (m.sessions sessionID = none → m.Remove sessionID = (m, none, false)) := by
  constructor
  · intro s hs
    have h1 : (m.Remove sessionID).1.sessions sessionID = none := by
      simp [SessionManager.Remove, hs]
    refine ⟨?_, ?_, ?_, ?_, ?_⟩ <;>
      simp [SessionManager.Remove, hs, h1]
  · intro hs
    simp [SessionManager.Remove, hs]

/-- Concrete session used by the C8 and C7 witnesses. -/
def wSession : Session :=
  ⟨"1.2.3.4:5000", 100, 200, 3, 4, 1000⟩

/-- Concrete one-session manager used by the C8 and C7 witnesses. -/
def wManager : SessionManager where
  sessions := fun k => if k = "1.2.3.4:5000" then some wSession else none
  timeout := 30

/-- Witness for C8 at a concrete one-session manager. -/
theorem session_remove_idempotent_witness :
    (wManager.Remove "1.2.3.4:5000").2.2 = true ∧
    ((wManager.Remove "1.2.3.4:5000").1.Remove "1.2.3.4:5000").2.2 = false := by
  have h := (session_remove_idempotent wManager "1.2.3.4:5000").1 wSession (by decide)
  exact ⟨h.2.1, h.2.2.2.2⟩

/-! ## Claim C7 -/

/-- The behaviour claim C7 states for the cleanup call that wins the removal
race. -/
def CleanupWinnerSpec (cfg : UDPLoggingConfig) (m : SessionManager) (sess : Session)
    (now : Int) : Prop :=
  (cleanupSession cfg m sess now).manager.sessions sess.id = none ∧
  (cleanupSession cfg m sess now).socketClosed = true ∧
  (cleanupSession cfg m sess now).releasedConnection = true ∧
  (cleanupSession cfg m sess now).releasedTotal = true ∧
  (cleanupSession cfg m sess now).activeDecremented = true ∧
  ((cleanupSession cfg m sess now).closeEvent.isSome = true ↔
    cfg.logSessionClose = true
      ∧ (0 < cfg.minLogBytes → cfg.minLogBytes ≤ sess.bytesSent + sess.bytesReceived)
      ∧ (0 < cfg.minLogDuration → cfg.minLogDuration ≤ now - sess.createdAt)) ∧
  (∀ ev, (cleanupSession cfg m sess now).closeEvent = some ev →
    ev.duration = now - sess.createdAt)

/-- C7: the cleanup path that wins the removal race removes the session,
closes the upstream socket, releases the per-IP and total quotas, always
decrements the active gauge, emits the close event exactly when log_close is
enabled and both positive thresholds are met, and the emitted event carries
duration now minus created_at. -/
theorem cleanup_session_winner (cfg : UDPLoggingConfig) (m : SessionManager)
    (sess : Session) (now : Int) (h : m.sessions sess.id = some sess) :
    CleanupWinnerSpec cfg m sess now := by
  have hrem : m.Remove sess.id
      = ({ m with sessions := fun k => if k = sess.id then none else m.sessions k },
         some sess, true) := by
    rw [SessionManager.Remove, h]
  have hif : ∀ (c : Bool) (x : CloseEvent), (if c then some x else none).isSome = c := by
    intro c x
    cases c <;> simp
  refine ⟨?_, ?_, ?_, ?_, ?_, ?_, ?_⟩
  · simp [cleanupSession, hrem]
  · simp [cleanupSession, hrem]
  · simp [cleanupSession, hrem]
  · simp [cleanupSession, hrem]
  · simp [cleanupSession, hrem]
  · simp only [cleanupSession, hrem]
    rw [hif]
    simp only [Bool.and_eq_true, Bool.not_eq_true', decide_eq_false_iff_not]
    constructor
    · rintro ⟨⟨h1, h2⟩, h3⟩
      refine ⟨h1, ?_, ?_⟩ <;> intro hp <;> omega
    · rintro ⟨h1, h2, h3⟩
      refine ⟨⟨h1, ?_⟩, ?_⟩ <;> omega
  · intro ev hev
    simp only [cleanupSession, hrem] at hev
    split at hev
    · rw [← Option.some.inj hev]
    · exact absurd hev (by simp)

/-- Witness for C7 at a concrete session and config. -/
theorem cleanup_session_winner_witness :
    wManager.sessions wSession.id = some wSession ∧
    CleanupWinnerSpec ⟨true, 50, 10⟩ wManager wSession 2000 :=
  ⟨by decide, cleanup_session_winner ⟨true, 50, 10⟩ wManager wSession 2000 (by decide)⟩

/-! ## Claim C10 -/

/-- Every per-IP active count of the limiter is non-negative. -/
def ConnCountNonneg (l : ConnectionLimiter) : Prop :=
  ∀ ip, 0 ≤ (connEntryOf l ip).count

/-- Allow preserves non-negativity of all per-IP counts. -/
theorem allow_preserves_nonneg (l : ConnectionLimiter) (ip : String) (t : Int)
    (h : ConnCountNonneg l) : ConnCountNonneg (l.Allow ip t).1 := by
  intro ip'
  rw [ConnectionLimiter.Allow]
  by_cases hip : ip' = ip
  · subst hip
    split
    · simp only [connEntryOf_setEntry_same]
      positivity
    · simp only [connEntryOf_setEntry_same]
      positivity
  · split
    · rw [connEntryOf_setEntry_other _ _ _ _ hip]
      exact h ip'
    · rw [connEntryOf_setEntry_other _ _ _ _ hip]
      exact h ip'

/-- Release preserves non-negativity of all per-IP counts. -/
theorem release_preserves_nonneg (l : ConnectionLimiter) (ip : String)
    (h : ConnCountNonneg l) : ConnCountNonneg (l.Release ip) := by
  intro ip'
  unfold ConnectionLimiter.Release
  cases he : l.connections ip with
  | none =>
    simp only [he]
    exact h ip'
  | some e =>
    simp only [he]
    by_cases hc : 0 < e.count
    · rw [if_pos hc]
      by_cases hip : ip' = ip
      · subst hip
        rw [connEntryOf_setEntry_same]
        simp only
        omega
      · rw [connEntryOf_setEntry_other _ _ _ _ hip]
        exact h ip'
    · rw [if_neg hc]
      exact h ip'

/-- Any operation run preserves non-negativity of all per-IP counts. -/
theorem connOpRun_preserves_nonneg (ops : List ConnOp) :
    ∀ l : ConnectionLimiter, ConnCountNonneg l → ConnCountNonneg (connOpRun l ops) := by
  induction ops with
  | nil => intro l h; exact h
  | cons op rest ih =>
    intro l h
    cases op with
    | allow ip t => exact ih _ (allow_preserves_nonneg l ip t h)
    | release ip => exact ih _ (release_preserves_nonneg l ip h)

/-- C10: along every interleaving of Allow and Release calls from a fresh
limiter, every per-IP active count stays non-negative (the operation list is
universally quantified, so every intermediate state is the final state of
some prefix list), and a Release for an IP without a record, or whose count
is already zero, leaves the limiter unchanged. -/
theorem conn_count_never_negative :
    (∀ (maxPerIP window : Int) (ops : List ConnOp) (ip : String),
      0 ≤ (connEntryOf (connOpRun (NewConnectionLimiter maxPerIP window) ops) ip).count) ∧
    (∀ (l : ConnectionLimiter) (ip : String),
      l.connections ip = none → l.Release ip = l) ∧
    (∀ (l : ConnectionLimiter) (ip : String) (e : connEntry),
      l.connections ip = some e → e.count = 0 → l.Release ip = l) := by
  refine ⟨?_, ?_, ?_⟩
  · intro maxPerIP window ops ip
    refine connOpRun_preserves_nonneg ops _ ?_ ip
    intro ip'
    simp [connEntryOf, NewConnectionLimiter]
  · intro l ip h
    rw [ConnectionLimiter.Release, h]
  · intro l ip e h hc
    unfold ConnectionLimiter.Release
    rw [h]
    exact if_neg (by omega)

/-! ## Claim C4 -/

/-- The state produced by RecordAttempt, independent of the returned bool. -/
theorem RecordAttempt_fst (l : AttemptLimiter) (ip : String) (now : Int) :
    (l.RecordAttempt ip now).1
      = { l with attempts := fun k =>
            if k = ip then some (validAttempts l ip now ++ [now]) else l.attempts k } := by
  rw [AttemptLimiter.RecordAttempt]
  split <;> rfl

/-- The bool produced by RecordAttempt: the pre-append valid count is below
the maximum. -/
theorem RecordAttempt_snd (l : AttemptLimiter) (ip : String) (now : Int) :
    (l.RecordAttempt ip now).2
      = decide (((validAttempts l ip now).length : Int) < l.maxPerIP) := by
  rw [AttemptLimiter.RecordAttempt]
  split
  · next h =>
    rw [eq_comm, decide_eq_false_iff_not]
    omega
  · next h =>
    rw [eq_comm, decide_eq_true_eq]
    omega

/-- Run characterisation of the attempt limiter: starting from stored list
`p`, with all instants of `p ++ ts` inside one another's windows, every
timestamp is recorded and the k-th call returns whether fewer than
`maxPerIP` timestamps preceded it. -/
theorem attemptRun_spec (ip : String) :
    ∀ (ts p : List Int) (l : AttemptLimiter),
      0 < l.window →
      attemptsOf l ip = p →
      (p ++ ts).Pairwise (fun a b => a ≤ b ∧ b - a < l.window) →
      attemptsOf (attemptRun l ip ts).1 ip = p ++ ts ∧
      (attemptRun l ip ts).2
        = (List.range ts.length).map
            (fun i : Nat => decide ((p.length : Int) + (i : Int) < l.maxPerIP)) := by
  intro ts
  induction ts with
  | nil =>
    intro p l hw hp _
    exact ⟨by simpa [attemptRun] using hp, by simp [attemptRun]⟩
  | cons t rest ih =>
    intro p l hw hp hpair
    have hvalid : validAttempts l ip t = p := by
      rw [validAttempts, hp, List.filter_eq_self]
      intro a ha
      rw [List.pairwise_append] at hpair
      have h2 := hpair.2.2 a ha t (List.mem_cons_self t rest)
      simp only [decide_eq_true_eq]
      omega
    have hfst := RecordAttempt_fst l ip t
    have hsnd := RecordAttempt_snd l ip t
    have hatt : attemptsOf (l.RecordAttempt ip t).1 ip = p ++ [t] := by
      rw [hfst]
      simp [attemptsOf, hvalid]
    have hwin : (l.RecordAttempt ip t).1.window = l.window := by rw [hfst]
    have hmax : (l.RecordAttempt ip t).1.maxPerIP = l.maxPerIP := by rw [hfst]
    have hpair' : ((p ++ [t]) ++ rest).Pairwise
        (fun a b => a ≤ b ∧ b - a < (l.RecordAttempt ip t).1.window) := by
      rw [hwin, List.append_assoc]
      simpa using hpair
    obtain ⟨ih1, ih2⟩ := ih (p ++ [t]) (l.RecordAttempt ip t).1
      (by rw [hwin]; exact hw) hatt hpair'
    constructor
    · simp only [attemptRun]
      rw [ih1]
      simp
    · simp only [attemptRun]
      rw [hsnd, ih2, hmax, hvalid]
      simp only [List.length_cons]
      rw [List.range_succ_eq_map]
      simp only [List.map_cons, List.map_map]
      congr 1
      refine List.map_congr_left ?_
      intro i _
      simp only [Function.comp_apply]
      rw [decide_eq_decide]
      have hl : ((p ++ [t]).length : Int) = (p.length : Int) + 1 := by
        simp
      rw [hl]
      constructor <;> intro h <;> push_cast at h ⊢ <;> omega

/-- C4: RecordAttempt appends the current timestamp after expiry on every
call, including refused ones, and returns true iff the post-append count of
unexpired timestamps is at most the maximum; and against a maximum of N,
N+1 attempts inside one window are all recorded, with the result of the
k-th call being true exactly for the first N calls. -/
theorem attempt_limiter_spec :
    (∀ (l : AttemptLimiter) (ip : String) (now : Int),
      attemptsOf ((l.RecordAttempt ip now).1) ip = validAttempts l ip now ++ [now] ∧
      ((l.RecordAttempt ip now).2 = true ↔
        ((validAttempts l ip now).length : Int) + 1 ≤ l.maxPerIP)) ∧
    (∀ (N : Nat) (W : Int) (ip : String) (ts : List Int),
      0 < W →
      ts.length = N + 1 →
      ts.Pairwise (fun a b => a ≤ b ∧ b - a < W) →
      attemptsOf (attemptRun (NewAttemptLimiter N W) ip ts).1 ip = ts ∧
      (attemptRun (NewAttemptLimiter N W) ip ts).2
        = (List.range (N + 1)).map (fun i : Nat => decide ((i : Int) < (N : Int)))) := by
  constructor
  · intro l ip now
    constructor
    · rw [RecordAttempt_fst]
      simp [attemptsOf]
    · rw [RecordAttempt_snd]
      rw [decide_eq_true_eq]
      omega
  · intro N W ip ts hw hlen hpair
    have hfresh : attemptsOf (NewAttemptLimiter N W) ip = [] := by
      simp [attemptsOf, NewAttemptLimiter]
    have h := attemptRun_spec ip ts [] (NewAttemptLimiter N W) hw hfresh (by simpa using hpair)
    refine ⟨by simpa using h.1, ?_⟩
    rw [h.2, hlen]
    refine List.map_congr_left ?_
    intro i _
    simp [NewAttemptLimiter]

/-- Witness for C4: a fresh limiter with maximum 2 sees three in-window
attempts, records all three, and refuses exactly the third. -/
theorem attempt_limiter_spec_witness :
    attemptsOf (attemptRun (NewAttemptLimiter ((2 : Nat) : Int) 100) "10.0.0.7" [1, 2, 3]).1
        "10.0.0.7" = [1, 2, 3] ∧
    (attemptRun (NewAttemptLimiter ((2 : Nat) : Int) 100) "10.0.0.7" [1, 2, 3]).2
        = [true, true, false] := by
  have h := attempt_limiter_spec.2 2 100 "10.0.0.7" [1, 2, 3]
    (by decide) (by decide) (by decide)
  exact ⟨h.1, by rw [h.2]; decide⟩

/-! ## Claim C5 -/

/-- Allow leaves the configuration fields of the limiter unchanged. -/
theorem Allow_fst_fields (l : ConnectionLimiter) (ip : String) (t : Int) :
    (l.Allow ip t).1.window = l.window ∧ (l.Allow ip t).1.maxPerIP = l.maxPerIP := by
  rw [ConnectionLimiter.Allow]
  constructor <;> split <;> rfl

/-- An Allow run leaves the configuration fields of the limiter unchanged. -/
theorem connAllowRun_fields (ip : String) :
    ∀ (ts : List Int) (l : ConnectionLimiter),
      (connAllowRun l ip ts).1.window = l.window ∧
      (connAllowRun l ip ts).1.maxPerIP = l.maxPerIP := by
  intro ts
  induction ts with
  | nil => intro l; exact ⟨rfl, rfl⟩
  | cons t rest ih =>
    intro l
    simp only [connAllowRun]
    have h := ih (l.Allow ip t).1
    have h2 := Allow_fst_fields l ip t
    exact ⟨h.1.trans h2.1, h.2.trans h2.2⟩

/-- Run characterisation of the connection limiter when every call is
admitted: starting from entry `(p.length, p)` with all instants inside one
another's windows and room for all the calls, every call is admitted and
every timestamp is appended. -/
theorem connAllowRun_all (ip : String) :
    ∀ (ts p : List Int) (l : ConnectionLimiter),
      0 < l.window →
      connEntryOf l ip = ⟨(p.length : Int), p⟩ →
      (p ++ ts).Pairwise (fun a b => a ≤ b ∧ b - a < l.window) →
      (p.length : Int) + ts.length ≤ l.maxPerIP →
      connEntryOf (connAllowRun l ip ts).1 ip = ⟨((p ++ ts).length : Int), p ++ ts⟩ ∧
      (connAllowRun l ip ts).2 = List.replicate ts.length true := by
  intro ts
  induction ts with
  | nil =>
    intro p l hw he hpair hlen
    exact ⟨by simpa [connAllowRun] using he, by simp [connAllowRun]⟩
  | cons t rest ih =>
    intro p l hw he hpair hlen
    have hfilter : p.filter (fun x => decide (t - l.window < x)) = p := by
      rw [List.filter_eq_self]
      intro a ha
      rw [List.pairwise_append] at hpair
      have h2 := hpair.2.2 a ha t (List.mem_cons_self t rest)
      simp only [decide_eq_true_eq]
      omega
    have hroom : ¬ ((p.length : Int) ≥ l.maxPerIP) := by
      simp only [List.length_cons] at hlen
      push_cast at hlen ⊢
      omega
    have hstep : l.Allow ip t = (l.setEntry ip ⟨(p.length : Int) + 1, p ++ [t]⟩, true) := by
      rw [ConnectionLimiter.Allow, he]
      simp only [hfilter]
      rw [if_neg hroom]
    have hff := Allow_fst_fields l ip t
    have hentry : connEntryOf (l.Allow ip t).1 ip = ⟨((p ++ [t]).length : Int), p ++ [t]⟩ := by
      rw [hstep]
      rw [connEntryOf_setEntry_same]
      simp
    have hpair' : ((p ++ [t]) ++ rest).Pairwise
        (fun a b => a ≤ b ∧ b - a < (l.Allow ip t).1.window) := by
      rw [hff.1, List.append_assoc]
      simpa using hpair
    have hlen' : (((p ++ [t]).length : Int)) + rest.length ≤ (l.Allow ip t).1.maxPerIP := by
      rw [hff.2]
      simp only [List.length_append, List.length_cons, List.length_nil] at hlen ⊢
      push_cast at hlen ⊢
      omega
    obtain ⟨ih1, ih2⟩ := ih (p ++ [t]) (l.Allow ip t).1
      (by rw [hff.1]; exact hw) hentry hpair' hlen'
    constructor
    · simp only [connAllowRun]
      rw [ih1]
      simp
    · simp only [connAllowRun]
      rw [ih2, hstep]
      simp [List.replicate_succ]

/-- The boolean produced by Allow: the surviving count is below the maximum. -/
theorem Allow_snd (l : ConnectionLimiter) (ip : String) (now : Int) :
    (l.Allow ip now).2
      = !decide (((((connEntryOf l ip).timestamps.filter
          (fun x => decide (now - l.window < x))).length : Int)) ≥ l.maxPerIP) := by
  rw [ConnectionLimiter.Allow]
  split
  · next h =>
    rw [decide_eq_true h]
    rfl
  · next h =>
    rw [decide_eq_false h]
    rfl

/-- C5: against `max_connections_per_ip = N` with all instants inside one
window, a fresh limiter admits the first N Allow calls, refuses the
(N+1)-th, and after one Release admits the next call. -/
theorem conn_limiter_boundary (N : Nat) (W : Int) (ip : String) (ts : List Int) (u v : Int)
    (hN : 0 < N) (hW : 0 < W) (hlen : ts.length = N)
    (hpair : (ts ++ [u, v]).Pairwise (fun a b => a ≤ b ∧ b - a < W)) :
    (connAllowRun (NewConnectionLimiter N W) ip ts).2 = List.replicate N true ∧
    ((connAllowRun (NewConnectionLimiter N W) ip ts).1.Allow ip u).2 = false ∧
    ((((connAllowRun (NewConnectionLimiter N W) ip ts).1.Allow ip u).1.Release ip).Allow
        ip v).2 = true := by
  have hpts : ts.Pairwise (fun a b => a ≤ b ∧ b - a < W) :=
    (List.pairwise_append.mp hpair).1
  have hrun := connAllowRun_all ip ts [] (NewConnectionLimiter N W) hW
    (by simp [connEntryOf, NewConnectionLimiter])
    (by simpa [NewConnectionLimiter] using hpts)
    (by simp [NewConnectionLimiter, hlen])
  have hentry : connEntryOf (connAllowRun (NewConnectionLimiter N W) ip ts).1 ip
      = ⟨(ts.length : Int), ts⟩ := by
    have h := hrun.1
    simpa using h
  have hres : (connAllowRun (NewConnectionLimiter N W) ip ts).2
      = List.replicate N true := by
    rw [hrun.2, hlen]
  have hflds := connAllowRun_fields ip ts (NewConnectionLimiter N W)
  have hwrun : (connAllowRun (NewConnectionLimiter N W) ip ts).1.window = W := hflds.1
  have hmrun : (connAllowRun (NewConnectionLimiter N W) ip ts).1.maxPerIP = (N : Int) :=
    hflds.2
  have hfU : ts.filter (fun x => decide (u - W < x)) = ts := by
    rw [List.filter_eq_self]
    intro a ha
    rw [List.pairwise_append] at hpair
    have h2 := hpair.2.2 a ha u (by simp)
    simp only [decide_eq_true_eq]
    omega
  have hAu : (connAllowRun (NewConnectionLimiter N W) ip ts).1.Allow ip u
      = ((connAllowRun (NewConnectionLimiter N W) ip ts).1.setEntry ip
          ⟨(ts.length : Int), ts⟩, false) := by
    rw [ConnectionLimiter.Allow, hentry]
    simp only [hwrun, hfU]
    rw [if_pos (by omega)]
  refine ⟨hres, by rw [hAu], ?_⟩
  have htne : ts ≠ [] := by
    intro hnil
    rw [hnil] at hlen
    simp at hlen
    omega
  have hsome : (((connAllowRun (NewConnectionLimiter N W) ip ts).1.setEntry ip
      ⟨(ts.length : Int), ts⟩).connections ip) = some ⟨(ts.length : Int), ts⟩ := by
    simp [ConnectionLimiter.setEntry]
  have hrel : (((connAllowRun (NewConnectionLimiter N W) ip ts).1.Allow ip u).1.Release ip)
      = ((connAllowRun (NewConnectionLimiter N W) ip ts).1.setEntry ip
          ⟨(ts.length : Int), ts⟩).setEntry ip ⟨(ts.length : Int) - 1, ts.tail⟩ := by
    rw [hAu]
    unfold ConnectionLimiter.Release
    simp only [hsome]
    rw [if_pos (by rw [hlen]; exact_mod_cast hN)]
    simp [htne]
  rw [hrel, Allow_snd, connEntryOf_setEntry_same]
  have hwL : (((connAllowRun (NewConnectionLimiter N W) ip ts).1.setEntry ip
      ⟨(ts.length : Int), ts⟩).setEntry ip ⟨(ts.length : Int) - 1, ts.tail⟩).window = W :=
    hwrun
  have hmL : (((connAllowRun (NewConnectionLimiter N W) ip ts).1.setEntry ip
      ⟨(ts.length : Int), ts⟩).setEntry ip ⟨(ts.length : Int) - 1, ts.tail⟩).maxPerIP
      = (N : Int) := hmrun
  rw [hwL, hmL]
  have hfV : ts.tail.filter (fun x => decide (v - W < x)) = ts.tail := by
    rw [List.filter_eq_self]
    intro a ha
    rw [List.pairwise_append] at hpair
    have h2 := hpair.2.2 a (List.mem_of_mem_tail ha) v (by simp)
    simp only [decide_eq_true_eq]
    omega
  simp only [hfV]
  rw [Bool.not_eq_true', decide_eq_false_iff_not]
  rw [List.length_tail, hlen]
  omega

/-- Witness for C5: maximum 1, one admission, refusal, release, admission. -/
theorem conn_limiter_boundary_witness :
    (connAllowRun (NewConnectionLimiter ((1 : Nat) : Int) 10) "ip1" [0]).2 = [true] ∧
    ((connAllowRun (NewConnectionLimiter ((1 : Nat) : Int) 10) "ip1" [0]).1.Allow
        "ip1" 1).2 = false ∧
    ((((connAllowRun (NewConnectionLimiter ((1 : Nat) : Int) 10) "ip1" [0]).1.Allow
        "ip1" 1).1.Release "ip1").Allow "ip1" 2).2 = true := by
  have h := conn_limiter_boundary 1 10 "ip1" [0] 1 2
    (by decide) (by decide) (by decide) (by decide)
  exact ⟨by rw [h.1]; rfl, h.2.1, h.2.2⟩

/-! ## Claim C3 -/

/-- Sum of the bytes of a list restricted to a predicate never exceeds the
sum of the whole list when every entry is non-negative. -/
theorem bwSum_filter_le (b : List consumptionEntry) (p : consumptionEntry → Bool)
    (h : ∀ e ∈ b, 0 ≤ e.bytes) : bwSum (b.filter p) ≤ bwSum b := by
  induction b with
  | nil => simp [bwSum]
  | cons e rest ih =>
    have hrest := ih (fun x hx => h x (List.mem_cons_of_mem _ hx))
    have he : 0 ≤ e.bytes := h e (List.mem_cons_self _ _)
    rw [List.filter_cons]
    by_cases hp : p e = true
    · rw [if_pos hp]
      simp only [bwSum, List.map_cons, List.sum_cons] at *
      omega
    · rw [if_neg hp]
      simp only [bwSum, List.map_cons, List.sum_cons] at *
      omega

/-- A second filter by a stronger predicate collapses the first. -/
theorem filter_filter_of_imp (b : List consumptionEntry) (p q : consumptionEntry → Bool)
    (h : ∀ e, q e = true → p e = true) : (b.filter p).filter q = b.filter q := by
  induction b with
  | nil => rfl
  | cons e rest ih =>
    by_cases hq : q e
    · have hp := h e hq
      simp [List.filter_cons, hp, hq, ih]
    · by_cases hp : p e <;> simp [List.filter_cons, hp, hq, ih]

/-- bwSum distributes over append. -/
theorem bwSum_append (l1 l2 : List consumptionEntry) :
    bwSum (l1 ++ l2) = bwSum l1 + bwSum l2 := by
  simp [bwSum]

/-- The times recorded by a run are the call times. -/
theorem bwRunTrace_times (ip : String) :
    ∀ (calls : List BWCall) (l : BandwidthLimiter),
      (bwRunTrace l ip calls).map (fun r => r.time) = calls.map (fun c => c.time) := by
  intro calls
  induction calls with
  | nil => intro l; rfl
  | cons c rest ih =>
    intro l
    simp only [bwRunTrace, List.map_cons]
    rw [ih]

/-- Expansion of the windowed trace sum over a cons. -/
theorem bwWinSum_cons (W t : Int) (r : BWRes) (tr : List BWRes) :
    bwWinSum W t (r :: tr)
      = (if r.accepted ∧ t - W < r.time ∧ r.time ≤ t then r.bytes else 0)
        + bwWinSum W t tr := by
  simp [bwWinSum]

/-- Expansion of the windowed trace sum over a cons of a literal record. -/
theorem bwWinSum_cons_mk (W t bytes time : Int) (acc : Bool) (tr : List BWRes) :
    bwWinSum W t (⟨bytes, time, acc⟩ :: tr)
      = (if acc ∧ t - W < time ∧ time ≤ t then bytes else 0) + bwWinSum W t tr := by
  simp [bwWinSum]

/-- A trace whose entries all lie after the window end contributes nothing. -/
theorem bwWinSum_of_late (W t : Int) (tr : List BWRes) (h : ∀ r ∈ tr, t < r.time) :
    bwWinSum W t tr = 0 := by
  induction tr with
  | nil => rfl
  | cons r rest ih =>
    rw [bwWinSum_cons, ih (fun x hx => h x (List.mem_cons_of_mem _ hx))]
    have hr := h r (List.mem_cons_self _ _)
    rw [if_neg (by omega : ¬ (r.accepted ∧ t - W < r.time ∧ r.time ≤ t))]
    omega

/-- Sum of the bucket entries whose timestamps fall in the window of length
`W` ending at `t`. -/
def bwWinBucket (W t : Int) (b : List consumptionEntry) : Int :=
  bwSum (b.filter (fun e => decide (t - W < e.timestamp ∧ e.timestamp ≤ t)))

/-- The expiry pass at an instant inside the window keeps every in-window
entry. -/
theorem bwWinBucket_bwValid (b : List consumptionEntry) (W t now : Int) (h : now ≤ t) :
    bwWinBucket W t (bwValid b now W) = bwWinBucket W t b := by
  unfold bwWinBucket bwValid
  rw [filter_filter_of_imp]
  intro e he
  simp only [decide_eq_true_eq] at he ⊢
  omega

/-- Windowed bucket sum of an appended entry. -/
theorem bwWinBucket_append (W t : Int) (b : List consumptionEntry) (e : consumptionEntry) :
    bwWinBucket W t (b ++ [e])
      = bwWinBucket W t b
        + (if t - W < e.timestamp ∧ e.timestamp ≤ t then e.bytes else 0) := by
  unfold bwWinBucket
  rw [List.filter_append, bwSum_append]
  by_cases h : t - W < e.timestamp ∧ e.timestamp ≤ t
  · simp [h, bwSum]
  · simp [h, bwSum]

/-- Windowed bucket sums are bounded by the plain sum for non-negative
entries. -/
theorem bwWinBucket_le (W t : Int) (b : List consumptionEntry)
    (h : ∀ e ∈ b, 0 ≤ e.bytes) : bwWinBucket W t b ≤ bwSum b :=
  bwSum_filter_le b _ h

/-- Invariant behind claim C3: under action drop, a run whose call times are
non-decreasing and whose byte arguments are non-negative keeps the sum of
the accepted bytes in any window of length `W`, plus the in-window part of
the current bucket, below the limit — provided the starting bucket already
respects the limit and precedes the calls. -/
theorem bw_drop_invariant (ip : String) (W maxB t : Int) :
    ∀ (calls : List BWCall) (l : BandwidthLimiter),
      l.action = "drop" → l.window = W → l.maxPerIP = maxB →
      (∀ e ∈ bucketOf l ip, 0 ≤ e.bytes) →
      bwSum (bucketOf l ip) ≤ maxB →
      0 ≤ maxB →
      (∀ e ∈ bucketOf l ip, ∀ c ∈ calls, e.timestamp ≤ c.time) →
      calls.Pairwise (fun a b => a.time ≤ b.time) →
      (∀ c ∈ calls, 0 ≤ c.bytes) →
      bwWinSum W t (bwRunTrace l ip calls) + bwWinBucket W t (bucketOf l ip) ≤ maxB := by
  intro calls
  induction calls with
  | nil =>
    intro l ha hw hm hnn hsum hmax _ _ _
    have hle := bwWinBucket_le W t (bucketOf l ip) hnn
    simp only [bwRunTrace, bwWinSum]
    simp only [List.map_nil, List.sum_nil]
    omega
  | cons c rest ih =>
    intro l ha hw hm hnn hsum hmax htime hpw hbpos
    subst hw
    subst hm
    by_cases ht : t < c.time
    · have hzero : bwWinSum l.window t (bwRunTrace l ip (c :: rest)) = 0 := by
        apply bwWinSum_of_late
        intro r hr
        have hmem : r.time ∈ (bwRunTrace l ip (c :: rest)).map (fun r => r.time) :=
          List.mem_map_of_mem _ hr
        rw [bwRunTrace_times] at hmem
        rcases List.mem_map.mp hmem with ⟨c', hc', heq⟩
        rcases List.mem_cons.mp hc' with h1 | h1
        · rw [h1] at heq
          omega
        · have h2 := (List.pairwise_cons.mp hpw).1 c' h1
          omega
      rw [hzero]
      have hle := bwWinBucket_le l.window t (bucketOf l ip) hnn
      omega
    · push_neg at ht
      simp only [bwRunTrace]
      by_cases hz : c.bytes = 0
      · have hallow : l.Allow ip c.bytes c.time = (l, true) := by
          rw [BandwidthLimiter.Allow, if_pos hz]
        have hfst : (l.Allow ip c.bytes c.time).1 = l := by rw [hallow]
        have hsnd : (l.Allow ip c.bytes c.time).2 = true := by rw [hallow]
        rw [hfst, hsnd, bwWinSum_cons_mk]
        have hrest := ih l ha rfl rfl hnn hsum hmax
          (fun e he c' hc' => htime e he c' (List.mem_cons_of_mem _ hc'))
          (List.pairwise_cons.mp hpw).2
          (fun c' hc' => hbpos c' (List.mem_cons_of_mem _ hc'))
        rw [hz, ite_self]
        omega
      · have hvnn : ∀ e ∈ bwValid (bucketOf l ip) c.time l.window, 0 ≤ e.bytes :=
          fun e he => hnn e (List.mem_of_mem_filter he)
        have hvsum : bwSum (bwValid (bucketOf l ip) c.time l.window)
            ≤ bwSum (bucketOf l ip) := bwSum_filter_le _ _ hnn
        have hvtime : ∀ e ∈ bwValid (bucketOf l ip) c.time l.window,
            ∀ c' ∈ rest, e.timestamp ≤ c'.time :=
          fun e he c' hc' =>
            htime e (List.mem_of_mem_filter he) c' (List.mem_cons_of_mem _ hc')
        have hwbv := bwWinBucket_bwValid (bucketOf l ip) l.window t c.time ht
        by_cases hover : l.maxPerIP
            < bwSum (bwValid (bucketOf l ip) c.time l.window) + c.bytes
        · -- refused: the bucket keeps only the surviving entries
          have hallow : l.Allow ip c.bytes c.time
              = (l.setBucket ip (bwValid (bucketOf l ip) c.time l.window), false) := by
            rw [BandwidthLimiter.Allow, if_neg hz, if_pos hover,
              if_neg (by simp [ha]), if_neg (by simp [ha])]
          have hfst : (l.Allow ip c.bytes c.time).1
              = l.setBucket ip (bwValid (bucketOf l ip) c.time l.window) := by
            rw [hallow]
          have hsnd : (l.Allow ip c.bytes c.time).2 = false := by rw [hallow]
          rw [hfst, hsnd, bwWinSum_cons_mk]
          have hrest := ih (l.setBucket ip (bwValid (bucketOf l ip) c.time l.window))
            ha rfl rfl
            (by rw [bucketOf_setBucket_same]; exact hvnn)
            (by rw [bucketOf_setBucket_same]; omega)
            hmax
            (by rw [bucketOf_setBucket_same]; exact hvtime)
            (List.pairwise_cons.mp hpw).2
            (fun c' hc' => hbpos c' (List.mem_cons_of_mem _ hc'))
          rw [bucketOf_setBucket_same, hwbv] at hrest
          simp only [Bool.false_eq_true, false_and, if_false]
          omega
        · -- admitted: the new entry is appended
          have hallow : l.Allow ip c.bytes c.time
              = (l.setBucket ip
                  (bwValid (bucketOf l ip) c.time l.window ++ [⟨c.bytes, c.time⟩]),
                 true) := by
            rw [BandwidthLimiter.Allow, if_neg hz, if_neg hover]
          have hfst : (l.Allow ip c.bytes c.time).1
              = l.setBucket ip
                  (bwValid (bucketOf l ip) c.time l.window ++ [⟨c.bytes, c.time⟩]) := by
            rw [hallow]
          have hsnd : (l.Allow ip c.bytes c.time).2 = true := by rw [hallow]
          rw [hfst, hsnd, bwWinSum_cons_mk]
          have hcnn : 0 ≤ c.bytes := hbpos c (List.mem_cons_self _ _)
          have hrest := ih (l.setBucket ip
              (bwValid (bucketOf l ip) c.time l.window ++ [⟨c.bytes, c.time⟩]))
            ha rfl rfl
            (by
              rw [bucketOf_setBucket_same]
              intro e he
              rcases List.mem_append.mp he with h1 | h1
              · exact hvnn e h1
              · rw [List.mem_singleton.mp h1]
                exact hcnn)
            (by
              rw [bucketOf_setBucket_same, bwSum_append]
              have hone : bwSum [(⟨c.bytes, c.time⟩ : consumptionEntry)] = c.bytes := by
                simp [bwSum]
              omega)
            hmax
            (by
              rw [bucketOf_setBucket_same]
              intro e he c' hc'
              rcases List.mem_append.mp he with h1 | h1
              · exact hvtime e h1 c' hc'
              · rw [List.mem_singleton.mp h1]
                exact (List.pairwise_cons.mp hpw).1 c' hc')
            (List.pairwise_cons.mp hpw).2
            (fun c' hc' => hbpos c' (List.mem_cons_of_mem _ hc'))
          rw [bucketOf_setBucket_same, bwWinBucket_append, hwbv] at hrest
          simp only [eq_self_iff_true, true_and]
          have hcsplit : (if t - l.window < c.time ∧ c.time ≤ t then c.bytes else 0)
              = (if t - l.window < c.time then c.bytes else 0) := by
            by_cases hin : t - l.window < c.time
            · rw [if_pos ⟨hin, ht⟩, if_pos hin]
            · rw [if_neg (by omega), if_neg hin]
          rw [hcsplit] at hrest ⊢
          omega

/-- C3: a fresh BandwidthLimiter configured with action drop admits, over
any sequence of Allow calls with non-decreasing times and non-negative byte
arguments, at most `maxB` accepted bytes inside every window of length `W`. -/
theorem bw_drop_window_bound (maxB W tmin : Int) (ip : String) (calls : List BWCall)
    (t : Int) (hmax : 0 ≤ maxB)
    (hmono : calls.Pairwise (fun a b => a.time ≤ b.time))
    (hpos : ∀ c ∈ calls, 0 ≤ c.bytes) :
    bwWinSum W t (bwRunTrace (NewBandwidthLimiter maxB W "drop" tmin) ip calls)
      ≤ maxB := by
  have h := bw_drop_invariant ip W maxB t calls (NewBandwidthLimiter maxB W "drop" tmin)
    (by simp [NewBandwidthLimiter]) rfl rfl
    (by simp [bucketOf, NewBandwidthLimiter])
    (by simp [bucketOf, NewBandwidthLimiter, bwSum]; omega)
    hmax
    (by simp [bucketOf, NewBandwidthLimiter])
    hmono hpos
  have hempty : bwWinBucket W t (bucketOf (NewBandwidthLimiter maxB W "drop" tmin) ip)
      = 0 := by
    simp [bwWinBucket, bucketOf, NewBandwidthLimiter, bwSum]
  omega

/-- Witness for C3 at a concrete call sequence that overflows the limit. -/
theorem bw_drop_window_bound_witness :
    (0 : Int) ≤ 10 ∧
    bwWinSum 100 50
      (bwRunTrace (NewBandwidthLimiter 10 100 "drop" 0) "10.0.0.7"
        [⟨6, 0⟩, ⟨7, 1⟩, ⟨4, 2⟩]) ≤ 10 :=
  ⟨by decide,
   bw_drop_window_bound 10 100 0 "10.0.0.7" [⟨6, 0⟩, ⟨7, 1⟩, ⟨4, 2⟩] 50
     (by decide) (by decide) (by decide)⟩

/-! ## Claim C6 -/

/-- Masking a byte with the all-ones byte mask is the identity. -/
theorem land_255_of_lt (b : Nat) (h : b < 256) : b &&& 255 = b := by
  have h2 := Nat.and_pow_two_sub_one_eq_mod b 8
  norm_num at h2
  rw [h2, Nat.mod_eq_of_lt h]

/-- With an all-ones mask over byte lists of equal length, the comparison
loop of Contains decides list equality. -/
theorem containsLoop_allones :
    ∀ (nn x : List Nat), nn.length = x.length →
      (∀ b ∈ nn, b < 256) → (∀ b ∈ x, b < 256) →
      (containsLoop nn (List.replicate nn.length 255) x = true ↔ nn = x) := by
  intro nn
  induction nn with
  | nil =>
    intro x hlen _ _
    have hx : x = [] := List.eq_nil_of_length_eq_zero hlen.symm
    subst hx
    simp [containsLoop]
  | cons a as ih =>
    intro x hlen hnn hx
    cases x with
    | nil => simp at hlen
    | cons b bs =>
      have ha : a < 256 := hnn a (List.mem_cons_self _ _)
      have hb : b < 256 := hx b (List.mem_cons_self _ _)
      have hlen' : as.length = bs.length := by
        simpa using hlen
      simp only [List.length_cons, List.replicate_succ, containsLoop]
      rw [land_255_of_lt a ha, land_255_of_lt b hb]
      by_cases hab : a = b
      · subst hab
        rw [if_neg (fun hne => hne rfl)]
        rw [ih bs hlen' (fun y hy => hnn y (List.mem_cons_of_mem _ hy))
          (fun y hy => hx y (List.mem_cons_of_mem _ hy))]
        simp
      · rw [if_pos hab]
        simp [hab]

/-- A 4-byte form returned by To4 has four bytes. -/
theorem To4_length (ip x : List Nat) (h : To4 ip = some x) : x.length = 4 := by
  unfold To4 at h
  split_ifs at h with h1 h2
  · rw [← Option.some.inj h]
    exact h1
  · rw [← Option.some.inj h, List.length_drop, h2.1]

/-- Bytes of a 4-byte form come from the original address. -/
theorem To4_mem (ip x : List Nat) (h : To4 ip = some x) : ∀ b ∈ x, b ∈ ip := by
  unfold To4 at h
  split_ifs at h with h1 h2
  · rw [← Option.some.inj h]
    exact fun b hb => hb
  · rw [← Option.some.inj h]
    exact fun b hb => List.drop_subset _ _ hb

/-- A valid address with no 4-byte form has sixteen bytes. -/
theorem To4_none_sixteen (ip : List Nat) (hv : ValidIP ip) (h : To4 ip = none) :
    ip.length = 16 := by
  unfold To4 at h
  split_ifs at h with h1 h2
  rcases hv.1 with h4 | h16
  · exact absurd h4 h1
  · exact h16

/-- A 4-byte address is its own 4-byte form. -/
theorem To4_of_length_four (x : List Nat) (h : x.length = 4) : To4 x = some x := by
  unfold To4
  rw [if_pos h]

/-- C6: the allowlist denies everything when its rule list is empty, permits
an address exactly when some rule contains it, and a bare-IP rule contains
exactly the addresses equal to its host (up to the 4-byte normal form). -/
theorem allowlist_semantics :
    (∀ ip : List Nat, (Allowlist.mk []).IsAllowed ip = false) ∧
    (∀ (a : Allowlist) (ip : List Nat),
      a.IsAllowed ip = true ↔ ∃ r ∈ a.rules, r.Contains ip = true) ∧
    (∀ bip x : List Nat, ValidIP bip → ValidIP x →
      ((parseBareIP bip).Contains x = true ↔ normIP x = normIP bip)) := by
  refine ⟨?_, ?_, ?_⟩
  · intro ip
    simp [Allowlist.IsAllowed]
  · intro a ip
    rw [Allowlist.IsAllowed]
    by_cases h : a.rules.length = 0
    · rw [if_pos h]
      have hnil : a.rules = [] := List.eq_nil_of_length_eq_zero h
      simp [hnil]
    · rw [if_neg h]
      simp [List.any_eq_true]
  · intro bip x hb hx
    cases hT : To4 bip with
    | some b4 =>
      have hlen4 : b4.length = 4 := To4_length _ _ hT
      have hb4 : ∀ b ∈ b4, b < 256 := fun b hbm => hb.2 b (To4_mem _ _ hT b hbm)
      have hnormb : normIP bip = b4 := by rw [normIP, hT]; rfl
      have hT4 : To4 b4 = some b4 := To4_of_length_four b4 hlen4
      have hnet : parseBareIP bip = ⟨b4, List.replicate 4 255⟩ := by
        rw [parseBareIP, hT]
      have hnnm : networkNumberAndMask ⟨b4, List.replicate 4 255⟩
          = some (b4, List.replicate 4 255) := by
        unfold networkNumberAndMask
        simp [hT4, hlen4]
      rw [hnet, IPNet.Contains]
      simp only [hnnm]
      cases hTx : To4 x with
      | some x4 =>
        have hx4len : x4.length = 4 := To4_length _ _ hTx
        have hx4b : ∀ b ∈ x4, b < 256 := fun b hbm => hx.2 b (To4_mem _ _ hTx b hbm)
        have hnormx : normIP x = x4 := by rw [normIP, hTx]; rfl
        simp only [hTx]
        rw [if_neg (by omega : ¬ x4.length ≠ b4.length)]
        have hmask : List.replicate 4 255 = List.replicate b4.length 255 := by
          rw [hlen4]
        rw [hmask, containsLoop_allones b4 x4 (by omega) hb4 hx4b, hnormx, hnormb]
        exact eq_comm
      | none =>
        have hxlen : x.length = 16 := To4_none_sixteen x hx hTx
        have hnormx : normIP x = x := by rw [normIP, hTx]; rfl
        simp only [hTx]
        rw [if_pos (by omega : x.length ≠ b4.length)]
        rw [hnormx, hnormb]
        constructor
        · intro hfalse
          exact absurd hfalse (by simp)
        · intro heq
          have := congrArg List.length heq
          rw [hxlen, hlen4] at this
          omega
    | none =>
      have hlen16 : bip.length = 16 := To4_none_sixteen bip hb hT
      have hnormb : normIP bip = bip := by rw [normIP, hT]; rfl
      have hnet : parseBareIP bip = ⟨bip, List.replicate 16 255⟩ := by
        rw [parseBareIP, hT]
      have hnnm : networkNumberAndMask ⟨bip, List.replicate 16 255⟩
          = some (bip, List.replicate 16 255) := by
        unfold networkNumberAndMask
        simp [hT, hlen16]
      rw [hnet, IPNet.Contains]
      simp only [hnnm]
      cases hTx : To4 x with
      | some x4 =>
        have hx4len : x4.length = 4 := To4_length _ _ hTx
        have hnormx : normIP x = x4 := by rw [normIP, hTx]; rfl
        simp only [hTx]
        rw [if_pos (by omega : x4.length ≠ bip.length)]
        rw [hnormx, hnormb]
        constructor
        · intro hfalse
          exact absurd hfalse (by simp)
        · intro heq
          have := congrArg List.length heq
          rw [hx4len, hlen16] at this
          omega
      | none =>
        have hxlen : x.length = 16 := To4_none_sixteen x hx hTx
        have hnormx : normIP x = x := by rw [normIP, hTx]; rfl
        simp only [hTx]
        rw [if_neg (by omega : ¬ x.length ≠ bip.length)]
        have hmask : List.replicate 16 255 = List.replicate bip.length 255 := by
          rw [hlen16]
        rw [hmask, containsLoop_allones bip x (by omega) hb.2 hx.2, hnormx, hnormb]
        exact eq_comm

/-- Witness for C6: the bare rule for 10.0.0.1 contains 10.0.0.1. -/
theorem allowlist_semantics_witness :
    ValidIP [10, 0, 0, 1] ∧
    ((parseBareIP [10, 0, 0, 1]).Contains [10, 0, 0, 1] = true
      ↔ normIP [10, 0, 0, 1] = normIP [10, 0, 0, 1]) :=
  ⟨by decide, allowlist_semantics.2.2 [10, 0, 0, 1] [10, 0, 0, 1] (by decide) (by decide)⟩

/-- Witness for C10: a Release on a fresh limiter with no record changes
nothing. -/
theorem conn_count_never_negative_witness :
    (NewConnectionLimiter 2 10).Release "10.0.0.7" = NewConnectionLimiter 2 10 :=
  conn_count_never_negative.2.1 (NewConnectionLimiter 2 10) "10.0.0.7" rfl

/-! ## Claim C9 -/

/-- Expansion of countedSum over a cons. -/
theorem countedSum_cons (s : CopyStep) (tr : List CopyStep) :
    countedSum (s :: tr) = s.counted + countedSum tr := by
  simp [countedSum]

/-- Expansion of acceptedReadSum over a cons. -/
theorem acceptedReadSum_cons (s : CopyStep) (tr : List CopyStep) :
    acceptedReadSum (s :: tr)
      = (if s.accepted = true then s.nr else 0) + acceptedReadSum tr := by
  rw [acceptedReadSum, List.filter_cons]
  by_cases hs : s.accepted = true
  · rw [if_pos hs, if_pos hs]
    simp [acceptedReadSum]
  · rw [if_neg hs, if_neg hs]
    simp [acceptedReadSum]

/-- When refused steps contribute nothing and accepted steps contribute
their full read size, the contributions sum to the accepted read sizes. -/
theorem countedSum_eq_acceptedReadSum (tr : List CopyStep)
    (h0 : ∀ s ∈ tr, s.accepted = false → s.counted = 0)
    (h1 : ∀ s ∈ tr, s.accepted = true → s.counted = s.nr) :
    countedSum tr = acceptedReadSum tr := by
  induction tr with
  | nil => rfl
  | cons s rest ih =>
    have hrest := ih (fun x hx => h0 x (List.mem_cons_of_mem _ hx))
      (fun x hx => h1 x (List.mem_cons_of_mem _ hx))
    rw [countedSum_cons, acceptedReadSum_cons, hrest]
    by_cases hs : s.accepted = true
    · rw [if_pos hs, h1 s (List.mem_cons_self _ _) hs]
    · rw [if_neg hs, h0 s (List.mem_cons_self _ _) (by
        cases hsa : s.accepted
        · rfl
        · exact absurd hsa hs)]

/-- C9 (amended): the value the copy loop hands to the sent-bytes counter is
the sum of the per-iteration contributions; a refused or unread iteration
contributes nothing; and whenever every accepted read is fully written, the
counter increase equals the sum of the accepted read sizes. -/
theorem copy_sent_accounting (m : RateLimitManager) (ip : String)
    (script : List CopyIter) :
    (∀ s ∈ (copyWithStats m ip script).2, s.accepted = false → s.counted = 0) ∧
    (copyWithStats m ip script).1 = countedSum (copyWithStats m ip script).2 ∧
    ((∀ s ∈ (copyWithStats m ip script).2, s.accepted = true → s.counted = s.nr) →
      (copyWithStats m ip script).1
        = acceptedReadSum (copyWithStats m ip script).2) := by
  have hmain : ∀ (sc : List CopyIter) (m' : RateLimitManager),
      (∀ s ∈ (copyWithStats m' ip sc).2, s.accepted = false → s.counted = 0) ∧
      (copyWithStats m' ip sc).1 = countedSum (copyWithStats m' ip sc).2 := by
    intro sc
    induction sc with
    | nil =>
      intro m'
      exact ⟨by simp [copyWithStats], by simp [copyWithStats, countedSum]⟩
    | cons it rest ih =>
      intro m'
      simp only [copyWithStats]
      by_cases hn : 0 < it.n
      · rw [if_pos hn]
        by_cases hacc : (m'.AllowBandwidth ip it.n it.t).2 = false
        · rw [if_pos hacc]
          exact ⟨by simp, by simp [countedSum]⟩
        · rw [if_neg hacc]
          by_cases hw : it.werr = true
          · rw [if_pos hw]
            exact ⟨by simp, by simp [countedSum]⟩
          · rw [if_neg hw]
            by_cases hsw : it.n ≠ it.w
            · rw [if_pos hsw]
              exact ⟨by simp, by simp [countedSum]⟩
            · rw [if_neg hsw]
              cases hr : it.rerr with
              | ok =>
                obtain ⟨ih0, ih1⟩ := ih (m'.AllowBandwidth ip it.n it.t).1
                constructor
                · intro s hs hsacc
                  rcases List.mem_cons.mp hs with h1 | h1
                  · rw [h1] at hsacc
                    exact absurd hsacc (by simp)
                  · exact ih0 s h1 hsacc
                · rw [countedSum_cons, ih1]
              | eof => exact ⟨by simp, by simp [countedSum]⟩
              | fail => exact ⟨by simp, by simp [countedSum]⟩
      · rw [if_neg hn]
        cases hr : it.rerr with
        | ok =>
          obtain ⟨ih0, ih1⟩ := ih m'
          constructor
          · intro s hs hsacc
            rcases List.mem_cons.mp hs with h1 | h1
            · rw [h1]
            · exact ih0 s h1 hsacc
          · rw [countedSum_cons, ih1]
            simp
        | eof => exact ⟨by simp, by simp [countedSum]⟩
        | fail => exact ⟨by simp, by simp [countedSum]⟩
  refine ⟨(hmain script m).1, (hmain script m).2, ?_⟩
  intro hfull
  rw [(hmain script m).2]
  exact countedSum_eq_acceptedReadSum _ (hmain script m).1 hfull

/-- Manager with no limiters configured: every bandwidth call is allowed. -/
def cexManager : RateLimitManager :=
  ⟨none, none, none, 0, 0, ""⟩

/-- Script with one accepted 10-byte read whose write reports 5 bytes
written and a write error, as the Go io contract permits on a failing
socket. -/
def cexScript : List CopyIter :=
  [⟨10, .ok, 5, true, 0⟩]

/-- C9 counterexample: on a partially-written accepted read the counter
increase (5) differs from the accepted read size (10), so the claim as
stated fails. -/
theorem copy_sent_exact_counterexample :
    ¬ ((copyWithStats cexManager "10.0.0.7" cexScript).1
        = acceptedReadSum (copyWithStats cexManager "10.0.0.7" cexScript).2) := by
  decide

/-- Script whose accepted reads are all fully written. -/
def fullScript : List CopyIter :=
  [⟨4, .ok, 4, false, 0⟩, ⟨3, .eof, 3, false, 1⟩]

/-- Witness for the amended C9 at a fully-written script. -/
theorem copy_sent_accounting_witness :
    (copyWithStats cexManager "10.0.0.7" fullScript).1
      = acceptedReadSum (copyWithStats cexManager "10.0.0.7" fullScript).2 :=
  (copy_sent_accounting cexManager "10.0.0.7" fullScript).2.2 (by decide)

end PacketPony
